import Mathlib

/-!
Verification of the recurrence and completion-state
engine against its specification.

The development shallowly embeds:
 * the semantics of the Go `time` package operations the code uses
   (`time.Date` normalisation, `AddDate`, `Weekday`, `Before`/`After`,
   `time.Parse` with the RFC3339 layout), over a civil-calendar model;
 * `internal/reminder/reminder.go` (`Reminder`, `RecurrencePattern`,
   `IsRecurring`, `NextOccurrence`, `MarkCompleted`);
 * the PATCH path `UpdateReminderHandler` of `internal/handlers` together with
   the `MemoryStorage` backend it writes through;
 * the SQLite storage adapter encode/decode of reminders (sentinel end
   date translation);
 * the function `isDueToday` of the front end file `www/member.ts`.

Machine integers do not overflow in any of the modelled code paths that the
claims touch, so Go `int` is modelled as `Int` and JavaScript numbers on the
touched fields as `Int` as well.
-/

/-! ## Civil calendar arithmetic (model of the calendar of the Go `time` package)

A Go `time.Time` is modelled by `GoTime`: the wall-clock (local) civil date,
the seconds elapsed since local midnight, and the fixed zone offset in seconds
east of UTC.  Ordering (`Before`/`After`) compares the absolute instant
`daysFromCivil * 86400 + sod - off`, exactly as Go compares the underlying
absolute seconds.  Leap seconds and sub-second precision are not modelled
(none of the verified code observes them).
-/

/-- Leap-year test of the proleptic Gregorian calendar, as the Go `time` package. -/
def isLeap (y : Int) : Bool := y % 4 == 0 && (y % 100 != 0 || y % 400 == 0)

/-- Days in month `m` of year `y` (meaningful for `m ∈ [1,12]`). -/
def daysInMonth (y m : Int) : Int :=
  if m = 2 then (if isLeap y then 29 else 28)
  else if m = 4 ∨ m = 6 ∨ m = 9 ∨ m = 11 then 30
  else 31

/-- Days since 1970-01-01 of the civil date `(y, m, d)`, for `m ∈ [1,12]`.
The formula is linear in `d`, so an out-of-range `d` rolls over to adjacent
months exactly as the normalisation in Go `time.Date` does. -/
def daysFromCivil (y m d : Int) : Int :=
  (if m ≤ 2 then y - 1 else y) * 365 +
    (if m ≤ 2 then y - 1 else y) / 4 - (if m ≤ 2 then y - 1 else y) / 100 +
    (if m ≤ 2 then y - 1 else y) / 400 +
    (153 * ((m + 9) % 12) + 2) / 5 + d - 1 - 719468

/-- The successor of a valid civil date (used to state calendar lemmas). -/
def nextDay (y m d : Int) : Int × Int × Int :=
  if d < daysInMonth y m then (y, m, d + 1)
  else if m < 12 then (y, m + 1, 1)
  else (y + 1, 1, 1)

/-- A Go `time.Time`: wall-clock civil date, seconds since local midnight,
and the fixed zone offset in seconds east of UTC. -/
structure GoTime where
  year : Int
  month : Int
  day : Int
  sod : Int
  off : Int
deriving Repr, DecidableEq

/-- The absolute instant (seconds since the Unix epoch) of a `GoTime`;
Go `Before`/`After`/`Equal` compare exactly this quantity. -/
def GoTime.abs (t : GoTime) : Int :=
  daysFromCivil t.year t.month t.day * 86400 + t.sod - t.off

/-- Go `t.Hour()`. -/
def GoTime.hour (t : GoTime) : Int := t.sod / 3600

/-- Go `t.Minute()`. -/
def GoTime.minute (t : GoTime) : Int := t.sod % 3600 / 60

/-- Go `t.Second()`. -/
def GoTime.second (t : GoTime) : Int := t.sod % 60

/-- Go `t.Weekday()` as `0 = Sunday, …, 6 = Saturday` (1970-01-01 was a
Thursday, day number `4`). -/
def GoTime.weekday (t : GoTime) : Int :=
  (daysFromCivil t.year t.month t.day + 4) % 7

/-- Result of `strings.ToLower(t.Weekday().String())` as used by
`NextOccurrence`, and likewise of the front end
expression `toLocaleDateString(weekday).toLowerCase()`. -/
def GoTime.weekdayName (t : GoTime) : String :=
  if t.weekday = 0 then "sunday"
  else if t.weekday = 1 then "monday"
  else if t.weekday = 2 then "tuesday"
  else if t.weekday = 3 then "wednesday"
  else if t.weekday = 4 then "thursday"
  else if t.weekday = 5 then "friday"
  else "saturday"

/-- Forward day-of-month normalisation: while the day exceeds the length
of the month, move to the next month.  Fuel-indexed so the recursion is structural;
`normDate` supplies enough fuel for every input. -/
def rollFwd : Nat → Int → Int → Int → Int × Int × Int
  | 0, y, m, d => (y, m, d)
  | fuel + 1, y, m, d =>
    if d > daysInMonth y m then
      if m = 12 then rollFwd fuel (y + 1) 1 (d - 31)
      else rollFwd fuel y (m + 1) (d - daysInMonth y m)
    else (y, m, d)

/-- Backward day-of-month normalisation: while the day is below 1, borrow
from the previous month. -/
def rollBwd : Nat → Int → Int → Int → Int × Int × Int
  | 0, y, m, d => (y, m, d)
  | fuel + 1, y, m, d =>
    if d < 1 then
      if m = 1 then rollBwd fuel (y - 1) 12 (d + 31)
      else rollBwd fuel y (m - 1) (d + daysInMonth y (m - 1))
    else (y, m, d)

/-- Normalisation of a possibly out-of-range civil date, with the semantics of
Go `time.Date`: months are reduced into `[1,12]` first (floor division, as
the Go helper `norm`), then the day rolls across month boundaries. -/
def normDate (y m d : Int) : Int × Int × Int :=
  let y1 := y + (m - 1) / 12
  let m1 := (m - 1) % 12 + 1
  if d < 1 then rollBwd ((1 - d).toNat + 1) y1 m1 d
  else rollFwd (d.toNat + 1) y1 m1 d

/-- Model of Go `time.Date(y, m, d, h, mi, s, 0, loc)` where `loc` is the
fixed offset `off`: normalises the clock into the day count, then the civil
date. -/
def goDate (y m d h mi s off : Int) : GoTime :=
  let total := h * 3600 + mi * 60 + s
  let dd := normDate y m (d + total / 86400)
  ⟨dd.1, dd.2.1, dd.2.2, total % 86400, off⟩

/-- Model of Go `t.AddDate(years, months, days)`, which is
`time.Date(t.Year()+years, t.Month()+months, t.Day()+days, hour, min, sec, …)`. -/
def GoTime.addDate (t : GoTime) (years months days : Int) : GoTime :=
  goDate (t.year + years) (t.month + months) (t.day + days)
    t.hour t.minute t.second t.off

/-- Internal consistency of a `GoTime`, as guaranteed for every value the Go
`time` package constructs: normalised civil date and clock. -/
def GoTime.valid (t : GoTime) : Prop :=
  1 ≤ t.month ∧ t.month ≤ 12 ∧ 1 ≤ t.day ∧ t.day ≤ daysInMonth t.year t.month ∧
    0 ≤ t.sod ∧ t.sod < 86400

instance (t : GoTime) : Decidable t.valid := by
  unfold GoTime.valid
  infer_instance

/-! ### Calendar lemmas -/

theorem isLeap_iff (y : Int) :
    isLeap y = true ↔ (y % 4 = 0 ∧ (y % 100 ≠ 0 ∨ y % 400 = 0)) := by
  simp [isLeap]

theorem daysInMonth_eq (y m : Int) :
    daysInMonth y m =
      if m = 2 then (if y % 4 = 0 ∧ (y % 100 ≠ 0 ∨ y % 400 = 0) then 29 else 28)
      else if m = 4 ∨ m = 6 ∨ m = 9 ∨ m = 11 then 30
      else 31 := by
  rcases Decidable.em (y % 4 = 0) with h4 | h4 <;>
    rcases Decidable.em (y % 100 = 0) with h100 | h100 <;>
    rcases Decidable.em (y % 400 = 0) with h400 | h400 <;>
    simp [daysInMonth, isLeap, h4, h100, h400]

theorem daysInMonth_bounds (y m : Int) :
    28 ≤ daysInMonth y m ∧ daysInMonth y m ≤ 31 := by
  rw [daysInMonth_eq]
  split_ifs <;> omega

theorem daysFromCivil_add_day (y m d : Int) :
    daysFromCivil y m (d + 1) = daysFromCivil y m d + 1 := by
  unfold daysFromCivil
  omega

set_option maxHeartbeats 1000000 in
theorem daysFromCivil_month_end (y m : Int) (hm1 : 1 ≤ m) (hm2 : m ≤ 11) :
    daysFromCivil y (m + 1) 1 = daysFromCivil y m (daysInMonth y m) + 1 := by
  rw [daysInMonth_eq]
  unfold daysFromCivil
  interval_cases m <;> split_ifs <;> omega

theorem daysFromCivil_year_end (y : Int) :
    daysFromCivil (y + 1) 1 1 = daysFromCivil y 12 31 + 1 := by
  unfold daysFromCivil
  norm_num
  omega

/-- Stepping to the next civil day adds one to the epoch-day number. -/
theorem daysFromCivil_nextDay (y m d : Int) (hm1 : 1 ≤ m) (hm2 : m ≤ 12)
    (hd2 : d ≤ daysInMonth y m) :
    daysFromCivil (nextDay y m d).1 (nextDay y m d).2.1 (nextDay y m d).2.2 =
      daysFromCivil y m d + 1 := by
  unfold nextDay
  split_ifs with h1 h2
  · exact daysFromCivil_add_day y m d
  · have hd : d = daysInMonth y m := by omega
    subst hd
    exact daysFromCivil_month_end y m hm1 (by omega)
  · have hm : m = 12 := by omega
    subst hm
    rw [daysInMonth_eq] at hd2 h1
    norm_num at hd2 h1
    have hd : d = 31 := by omega
    subst hd
    exact daysFromCivil_year_end y

theorem nextDay_valid (y m d : Int) (hm1 : 1 ≤ m) (hm2 : m ≤ 12)
    (hd1 : 1 ≤ d) (hd2 : d ≤ daysInMonth y m) :
    1 ≤ (nextDay y m d).2.1 ∧ (nextDay y m d).2.1 ≤ 12 ∧
      1 ≤ (nextDay y m d).2.2 ∧
      (nextDay y m d).2.2 ≤ daysInMonth (nextDay y m d).1 (nextDay y m d).2.1 := by
  have hb1 := daysInMonth_bounds y m
  unfold nextDay
  split_ifs with h1 h2
  · simp only []
    omega
  · have hb2 := daysInMonth_bounds y (m + 1)
    simp only []
    omega
  · have hb3 := daysInMonth_bounds (y + 1) 1
    simp only []
    omega

theorem rollFwd_id (fuel : Nat) (y m d : Int) (h : ¬ d > daysInMonth y m) :
    rollFwd (fuel + 1) y m d = (y, m, d) := by
  simp [rollFwd, h]

theorem normDate_id (y m d : Int) (hm1 : 1 ≤ m) (hm2 : m ≤ 12)
    (hd1 : 1 ≤ d) (hd2 : d ≤ daysInMonth y m) :
    normDate y m d = (y, m, d) := by
  have h12 : (m - 1) / 12 = 0 := by omega
  have h12' : (m - 1) % 12 = m - 1 := by omega
  unfold normDate
  simp only [h12, h12']
  rw [if_neg (by omega)]
  have hfuel : d.toNat + 1 = (d.toNat) + 1 := rfl
  rw [show y + 0 = y by ring, show m - 1 + 1 = m by ring]
  exact rollFwd_id d.toNat y m d (by omega)

theorem rollFwd_step (fuel : Nat) (y m d : Int) (h : d > daysInMonth y m)
    (hm : m ≠ 12) :
    rollFwd (fuel + 1) y m d = rollFwd fuel y (m + 1) (d - daysInMonth y m) := by
  simp [rollFwd, h, hm]

theorem rollFwd_step12 (fuel : Nat) (y d : Int) (h : d > daysInMonth y 12) :
    rollFwd (fuel + 1) y 12 d = rollFwd fuel (y + 1) 1 (d - 31) := by
  simp [rollFwd, h]

/-- On an in-range day-of-month, `normDate` of the next day is the civil
successor. -/
theorem normDate_succ (y m d : Int) (hm1 : 1 ≤ m) (hm2 : m ≤ 12)
    (hd1 : 1 ≤ d) (hd2 : d ≤ daysInMonth y m) :
    normDate y m (d + 1) = nextDay y m d := by
  have hb := daysInMonth_bounds y m
  rcases Decidable.em (d + 1 ≤ daysInMonth y m) with hle | hgt
  · rw [normDate_id y m (d + 1) hm1 hm2 (by omega) hle]
    unfold nextDay
    rw [if_pos (by omega)]
  · have hd : d = daysInMonth y m := by omega
    have h12 : (m - 1) / 12 = 0 := by omega
    have h12' : (m - 1) % 12 = m - 1 := by omega
    unfold normDate
    simp only [h12, h12']
    rw [if_neg (by omega)]
    rw [show y + 0 = y by ring, show m - 1 + 1 = m by ring]
    obtain ⟨n, hn⟩ : ∃ n, (d + 1).toNat = n + 1 := ⟨d.toNat, by omega⟩
    obtain ⟨n', hn'⟩ : ∃ n', n = n' + 1 := ⟨n - 1, by omega⟩
    rw [hn, hn']
    unfold nextDay
    rw [if_neg (by omega)]
    rcases Decidable.em (m = 12) with hm12 | hm12
    · subst hm12
      rw [if_neg (by omega)]
      have hd31 : daysInMonth y 12 = 31 := by rw [daysInMonth_eq]; norm_num
      rw [rollFwd_step12 (n' + 1 + 1) y (d + 1) (by omega)]
      rw [rollFwd_id (n' + 1) (y + 1) 1 (d + 1 - 31)
        (by have := daysInMonth_bounds (y + 1) 1; omega)]
      have : d + 1 - 31 = 1 := by omega
      rw [this]
    · rw [if_pos (by omega)]
      rw [rollFwd_step (n' + 1 + 1) y m (d + 1) (by omega) hm12]
      rw [rollFwd_id (n' + 1) y (m + 1) (d + 1 - daysInMonth y m)
        (by have := daysInMonth_bounds y (m + 1); omega)]
      have : d + 1 - daysInMonth y m = 1 := by omega
      rw [this]

theorem hms_sod (t : GoTime) :
    t.hour * 3600 + t.minute * 60 + t.second = t.sod := by
  unfold GoTime.hour GoTime.minute GoTime.second
  omega

/-- Go `time.Date` on an already-normalised civil date and in-range clock is
the identity embedding. -/
theorem goDate_id (y m d h mi s off : Int) (hm1 : 1 ≤ m) (hm2 : m ≤ 12)
    (hd1 : 1 ≤ d) (hd2 : d ≤ daysInMonth y m)
    (hs1 : 0 ≤ h * 3600 + mi * 60 + s) (hs2 : h * 3600 + mi * 60 + s < 86400) :
    goDate y m d h mi s off = ⟨y, m, d, h * 3600 + mi * 60 + s, off⟩ := by
  unfold goDate
  have h1 : (h * 3600 + mi * 60 + s) / 86400 = 0 := by omega
  have h2 : (h * 3600 + mi * 60 + s) % 86400 = h * 3600 + mi * 60 + s := by omega
  simp only [h1, h2, add_zero]
  rw [normDate_id y m d hm1 hm2 hd1 hd2]

/-- `AddDate(0, 0, 1)` on a valid time advances the civil date by one day and
keeps the clock. -/
theorem addDate_one (t : GoTime) (hv : t.valid) :
    t.addDate 0 0 1 =
      ⟨(nextDay t.year t.month t.day).1, (nextDay t.year t.month t.day).2.1,
        (nextDay t.year t.month t.day).2.2, t.sod, t.off⟩ := by
  obtain ⟨hm1, hm2, hd1, hd2, hs1, hs2⟩ := hv
  unfold GoTime.addDate goDate
  simp only [hms_sod]
  have h1 : t.sod / 86400 = 0 := by omega
  have h2 : t.sod % 86400 = t.sod := by omega
  simp only [h1, h2, add_zero]
  rw [normDate_succ t.year t.month t.day hm1 hm2 hd1 hd2]

theorem addDate_one_valid (t : GoTime) (hv : t.valid) :
    (t.addDate 0 0 1).valid := by
  obtain ⟨hm1, hm2, hd1, hd2, hs1, hs2⟩ := hv
  rw [addDate_one t ⟨hm1, hm2, hd1, hd2, hs1, hs2⟩]
  have hn := nextDay_valid t.year t.month t.day hm1 hm2 hd1 hd2
  exact ⟨hn.1, hn.2.1, hn.2.2.1, hn.2.2.2, hs1, hs2⟩

theorem addDate_one_abs (t : GoTime) (hv : t.valid) :
    (t.addDate 0 0 1).abs = t.abs + 86400 := by
  obtain ⟨hm1, hm2, hd1, hd2, hs1, hs2⟩ := hv
  rw [addDate_one t ⟨hm1, hm2, hd1, hd2, hs1, hs2⟩]
  unfold GoTime.abs
  have hstep := daysFromCivil_nextDay t.year t.month t.day hm1 hm2 hd2
  simp only []
  omega

theorem addDate_one_off (t : GoTime) (hv : t.valid) :
    (t.addDate 0 0 1).off = t.off := by
  rw [addDate_one t hv]

theorem addDate_one_sod (t : GoTime) (hv : t.valid) :
    (t.addDate 0 0 1).sod = t.sod := by
  rw [addDate_one t hv]

/-! ## RFC 3339 parsing (model of Go `time.Parse(time.RFC3339, s)`)

The Go parser for the RFC3339 layout accepts
`yyyy-mm-ddThh:mm:ss[.fraction](Z|±hh:mm)` with range validation of every
component (including the day of month against the length of the month).  The
fractional part is discarded here since the model does not track sub-second
precision. -/

/-- Numeric value of a decimal digit character. -/
def digitVal (c : Char) : Int := (c.toNat : Int) - 48

/-- Strips an optional fractional-seconds part (a dot followed by at least one
digit); fails when a dot is not followed by digits. -/
def stripFrac : List Char → Option (List Char)
  | '.' :: more =>
    if (more.takeWhile Char.isDigit).isEmpty then none
    else some (more.dropWhile Char.isDigit)
  | l => some l

/-- Parses the zone suffix: `Z` or `±hh:mm`, returning the offset in seconds
east of UTC. -/
def parseOffset : List Char → Option Int
  | ['Z'] => some 0
  | [c, o1, o2, ':', o3, o4] =>
    if (c = '+' ∨ c = '-') ∧ o1.isDigit ∧ o2.isDigit ∧ o3.isDigit ∧ o4.isDigit then
      let oh := 10 * digitVal o1 + digitVal o2
      let om := 10 * digitVal o3 + digitVal o4
      if oh ≤ 23 ∧ om ≤ 59 then
        some ((if c = '+' then 1 else -1) * (oh * 3600 + om * 60))
      else none
    else none
  | _ => none

/-- Model of Go `time.Parse(time.RFC3339, s)`. -/
def parseRFC3339 (str : String) : Option GoTime :=
  match str.data with
  | y1 :: y2 :: y3 :: y4 :: '-' :: m1 :: m2 :: '-' :: d1 :: d2 :: 'T' ::
      h1 :: h2 :: ':' :: i1 :: i2 :: ':' :: s1 :: s2 :: rest =>
    if y1.isDigit ∧ y2.isDigit ∧ y3.isDigit ∧ y4.isDigit ∧ m1.isDigit ∧
        m2.isDigit ∧ d1.isDigit ∧ d2.isDigit ∧ h1.isDigit ∧ h2.isDigit ∧
        i1.isDigit ∧ i2.isDigit ∧ s1.isDigit ∧ s2.isDigit then
      let y := 1000 * digitVal y1 + 100 * digitVal y2 + 10 * digitVal y3 + digitVal y4
      let mo := 10 * digitVal m1 + digitVal m2
      let d := 10 * digitVal d1 + digitVal d2
      let h := 10 * digitVal h1 + digitVal h2
      let mi := 10 * digitVal i1 + digitVal i2
      let s := 10 * digitVal s1 + digitVal s2
      if 1 ≤ mo ∧ mo ≤ 12 ∧ 1 ≤ d ∧ d ≤ daysInMonth y mo ∧ h ≤ 23 ∧
          mi ≤ 59 ∧ s ≤ 59 then
        match stripFrac rest with
        | some rest2 =>
          match parseOffset rest2 with
          | some off => some ⟨y, mo, d, h * 3600 + mi * 60 + s, off⟩
          | none => none
        | none => none
      else none
    else none
  | _ => none

/-! ## The reminder model (`internal/reminder/reminder.go`)

Field names follow the JSON tags of the Go structs (`Type` is not a legal
Lean field name).  `time.Now()` appears as an explicit parameter wherever the
Go code reads the clock. -/

structure RecurrencePattern where
  type : String
  days : List String
  date : Int
  end_date : String
deriving Repr, DecidableEq

structure Reminder where
  id : String
  title : String
  description : String
  due_date : GoTime
  recurrence : RecurrencePattern
  completed : Bool
  completed_at : Option GoTime
  family_id : String
  family_member : String
deriving Repr, DecidableEq

/-- Go `(r *Reminder) IsRecurring()`. -/
def Reminder.isRecurring (r : Reminder) : Bool :=
  r.recurrence.type != "once"

/-- Go `(r *Reminder) MarkCompleted()`; the `time.Now()` it reads is the
explicit `now`. -/
def Reminder.markCompleted (r : Reminder) (now : GoTime) : Reminder :=
  { r with completed := true, completed_at := some now }

/-- The end-date guard of `NextOccurrence`: cuts the recurrence off when
`EndDate` is non-empty, parses, and `after` is strictly past it. -/
def endDateCut (endDate : String) (after : GoTime) : Bool :=
  if endDate != "" then
    match parseRFC3339 endDate with
    | some e => decide (e.abs < after.abs)
    | none => false
  else false

/-- The `weekly` arm of `NextOccurrence`: up to seven times, step one day
forward and return the first stepped day whose (lowercased) weekday name is
an element of `days`, carrying over the clock of the due date. -/
def weeklyScan (days : List String) (due : GoTime) : GoTime → Nat → Option GoTime
  | _, 0 => none
  | next, i + 1 =>
    let next' := next.addDate 0 0 1
    if days.contains next'.weekdayName then
      some (goDate next'.year next'.month next'.day due.hour due.minute
        due.second next'.off)
    else weeklyScan days due next' i

/-- Go `(r *Reminder) NextOccurrence(after)`. -/
def Reminder.nextOccurrence (r : Reminder) (after : GoTime) : Option GoTime :=
  if r.recurrence.type == "once" then
    if after.abs < r.due_date.abs then some r.due_date else none
  else if endDateCut r.recurrence.end_date after then none
  else if r.recurrence.type == "weekly" then
    weeklyScan r.recurrence.days r.due_date after 7
  else if r.recurrence.type == "monthly" then
    let next := goDate after.year after.month r.recurrence.date
      r.due_date.hour r.due_date.minute r.due_date.second after.off
    some (if next.abs < after.abs then next.addDate 0 1 0 else next)
  else none

/-- Model of Go `strings.ToLower` on the ASCII strings the code compares
(character-wise lowercasing). -/
def strToLower (s : String) : String :=
  String.mk (s.data.map fun c =>
    if 'A' ≤ c ∧ c ≤ 'Z' then Char.ofNat (c.toNat + 32) else c)

/-- Go `isValidWeekday` from the handlers package: lowercases its argument and
compares against the seven weekday names. -/
def isValidWeekday (day : String) : Bool :=
  ["monday", "tuesday", "wednesday", "thursday", "friday", "saturday",
    "sunday"].contains (strToLower day)

/-! ## The front end due-today evaluation (`www/member.ts`)

`isDueToday` receives the rendered reminder.  Its `due_date` field is the
string the back end serialised; the function's only use of it is
`new Date(due_date)` followed by calendar-day comparison, so the model carries
the parsed calendar value directly (`none` models an absent/undefined
`due_date`).  `today` — `new Date()` rounded down to local midnight by
`setHours(0,0,0,0)` — is an explicit parameter. -/

structure JSRecurrence where
  type : String
  days : Option (List String)
  date : Int
  end_date : Option String
deriving Repr, DecidableEq

structure JSReminder where
  due_date : Option GoTime
  recurrence : Option JSRecurrence
deriving Repr, DecidableEq

/-- Model of `isDueToday` from `www/member.ts`.  The weekday string is the
lowercased long English weekday name of `today`, as produced by
`toLocaleDateString` with the en-US locale and the long weekday option,
then `toLowerCase`. -/
def isDueToday (r : JSReminder) (today : GoTime) : Bool :=
  match r.due_date with
  | some dueDate =>
    if dueDate.year == today.year ∧ dueDate.month == today.month ∧
        dueDate.day == today.day then true
    else isDueTodayRecurrence r today
  | none => isDueTodayRecurrence r today
where
  /-- The recurrence-pattern part of `isDueToday` (the `switch` statement). -/
  isDueTodayRecurrence (r : JSReminder) (today : GoTime) : Bool :=
    match r.recurrence with
    | some rec =>
      if rec.type == "daily" then true
      else if rec.type == "weekly" then
        match rec.days with
        | some ds => ds.contains today.weekdayName
        | none => false
      else if rec.type == "monthly" then rec.date == today.day
      else false
    | none => false

/-! ## The handler-side data model and `MemoryStorage`

The update handler (`UpdateReminderHandler`) and the storage backends operate
on the revision of `reminder.Reminder` whose `DueDate` is a nullable
`*time.Time`; it is embedded here as `HReminder` to keep it apart from the
`Reminder` of `internal/reminder/reminder.go` above (which carries a plain
`time.Time`).  All other fields and methods coincide. -/

structure HReminder where
  id : String
  title : String
  description : String
  due_date : Option GoTime
  recurrence : RecurrencePattern
  completed : Bool
  completed_at : Option GoTime
  family_id : String
  family_member : String
deriving Repr, DecidableEq

/-- Go `IsRecurring` on the nullable-due-date reminder revision. -/
def HReminder.isRecurring (r : HReminder) : Bool :=
  r.recurrence.type != "once"

/-- Go `MarkCompleted` on the nullable-due-date reminder revision; the
internal `time.Now()` is identified with the `now` of the enclosing request. -/
def HReminder.markCompleted (r : HReminder) (now : GoTime) : HReminder :=
  { r with completed := true, completed_at := some now }

structure CompletionEvent where
  id : String
  reminder_id : String
  completed_at : GoTime
  completed_by : String
deriving Repr, DecidableEq

structure Family where
  id : String
  name : String
  members : List String
deriving Repr, DecidableEq

/-- Insertion into a Go map modelled as an association list: replaces the
binding of an existing key, otherwise appends. -/
def mapInsert {α : Type} (k : String) (v : α) : List (String × α) → List (String × α)
  | [] => [(k, v)]
  | (k0, v0) :: rest => if k0 = k then (k, v) :: rest else (k0, v0) :: mapInsert k v rest

/-- The `MemoryStorage` backend: maps keyed by entity id plus the three id
counters. -/
structure MemoryStorage where
  families : List (String × Family)
  reminders : List (String × HReminder)
  completionEvents : List (String × CompletionEvent)
  familyIDCounter : Int
  reminderIDCounter : Int
  completionEventIDCounter : Int
deriving Repr, DecidableEq

/-- Go `MemoryStorage.GetReminder` (the not-found error is `none`). -/
def MemoryStorage.getReminder (m : MemoryStorage) (id : String) : Option HReminder :=
  m.reminders.lookup id

/-- Go `MemoryStorage.CreateReminder`: an upsert by id, never failing. -/
def MemoryStorage.createReminder (m : MemoryStorage) (r : HReminder) : MemoryStorage :=
  { m with reminders := mapInsert r.id r m.reminders }

/-- Go `MemoryStorage.CreateCompletionEvent`: an upsert by id, never failing. -/
def MemoryStorage.createCompletionEvent (m : MemoryStorage) (e : CompletionEvent) :
    MemoryStorage :=
  { m with completionEvents := mapInsert e.id e m.completionEvents }

/-- Go `MemoryStorage.GetCompletionEventIDCounter`. -/
def MemoryStorage.getCompletionEventIDCounter (m : MemoryStorage) : Int :=
  m.completionEventIDCounter

/-! ## The PATCH update handler (`UpdateReminderHandler`)

The request body is decoded into a Go string-keyed map of JSON values; a
decoded JSON value is modelled by `JValue` (numbers restricted to integers — no
claim touches non-integral numeric payloads). -/

inductive JValue where
  | null : JValue
  | bool (b : Bool) : JValue
  | num (n : Int) : JValue
  | str (s : String) : JValue
  | arr (elems : List JValue) : JValue
  | obj (fields : List (String × JValue)) : JValue

/-- Go `json.Unmarshal` of a JSON value into a `string` field: absent or
null leaves the zero value, a string is taken, anything else is a type
error. -/
def unmarshalString : Option JValue → Option String
  | none => some ""
  | some JValue.null => some ""
  | some (JValue.str s) => some s
  | some _ => none

/-- Go `json.Unmarshal` into an `int` field. -/
def unmarshalInt : Option JValue → Option Int
  | none => some 0
  | some JValue.null => some 0
  | some (JValue.num n) => some n
  | some _ => none

/-- Go `json.Unmarshal` into a `[]string` field (`nil` is modelled as `[]`). -/
def unmarshalStringList : Option JValue → Option (List String)
  | none => some []
  | some JValue.null => some []
  | some (JValue.arr es) =>
    es.mapM fun e => match e with
      | JValue.str s => some s
      | _ => none
  | some _ => none

/-- The `recurrence` patch case: `json.Marshal` of the decoded map followed by
`json.Unmarshal` into a `RecurrencePattern`; `none` is the unmarshal error. -/
def unmarshalRecurrence (fields : List (String × JValue)) : Option RecurrencePattern := do
  let t ← unmarshalString (fields.lookup "type")
  let ds ← unmarshalStringList (fields.lookup "days")
  let dt ← unmarshalInt (fields.lookup "date")
  let ed ← unmarshalString (fields.lookup "end_date")
  pure ⟨t, ds, dt, ed⟩

/-- One `case` arm of the field loop in `UpdateReminderHandler`: given the
store, the reminder being patched, the `updated` flag and the request clock,
processes a single key/value pair of the patch map. -/
def applyPatchEntry (st : MemoryStorage) (r : HReminder) (updated : Bool)
    (now : GoTime) (k : String) (v : JValue) : MemoryStorage × HReminder × Bool :=
  if k = "title" then
    match v with
    | JValue.str s => (st, { r with title := s }, true)
    | _ => (st, r, updated)
  else if k = "description" then
    match v with
    | JValue.str s => (st, { r with description := s }, true)
    | _ => (st, r, updated)
  else if k = "due_date" then
    match v with
    | JValue.str s =>
      if s = "" then (st, { r with due_date := none }, true)
      else
        match parseRFC3339 s with
        | some t => (st, { r with due_date := some t }, true)
        | none => (st, r, updated)
    | _ => (st, r, updated)
  else if k = "completed" then
    match v with
    | JValue.bool b =>
      let r' :=
        if r.isRecurring then
          if b then { r with completed_at := some now, completed := false }
          else { r with completed_at := none, completed := false }
        else
          if b ∧ !r.completed then r.markCompleted now
          else if !b ∧ r.completed then
            { r with completed := false, completed_at := none }
          else r
      let u' :=
        if r.isRecurring then true
        else if b ∧ !r.completed then true
        else if !b ∧ r.completed then true
        else updated
      let ev : CompletionEvent :=
        ⟨"cev" ++ toString (st.getCompletionEventIDCounter + 1), r.id, now,
          r.family_member⟩
      (st.createCompletionEvent ev, r', u')
    | _ => (st, r, updated)
  else if k = "recurrence" then
    match v with
    | JValue.obj fields =>
      match unmarshalRecurrence fields with
      | some rp => (st, { r with recurrence := rp }, true)
      | none => (st, r, updated)
    | _ => (st, r, updated)
  else if k = "family_member" then
    match v with
    | JValue.str s => (st, { r with family_member := s }, true)
    | _ => (st, r, updated)
  else (st, r, updated)

/-- The `for k, v := range patch` loop of `UpdateReminderHandler`. -/
def updateFold (st : MemoryStorage) (r : HReminder) (updated : Bool)
    (now : GoTime) : List (String × JValue) → MemoryStorage × HReminder × Bool
  | [] => (st, r, updated)
  | (k, v) :: rest =>
    let s := applyPatchEntry st r updated now k v
    updateFold s.1 s.2.1 s.2.2 now rest

/-- Go `UpdateReminderHandler` against `MemoryStorage`: looks up the
reminder (`none` models the 404 response), folds the patch map over it, and
persists through `CreateReminder` only when some field was applied.  The
second component is the JSON response body. -/
def updateReminderHandler (st : MemoryStorage) (id : String)
    (patch : List (String × JValue)) (now : GoTime) :
    MemoryStorage × Option HReminder :=
  match st.getReminder id with
  | none => (st, none)
  | some r =>
    let s := updateFold st r false now patch
    (if s.2.2 then s.1.createReminder s.2.1 else s.1, some s.2.1)

/-! ## The SQLite storage adapter (reminder row encoding)

`SQLiteStorage.CreateReminder` writes one row computed purely from the
reminder; `SQLiteStorage.GetReminder` rebuilds a reminder purely from that
row.  Both pure halves are embedded (`sqliteCreateReminder`,
`sqliteGetReminder`); the database itself stores rows verbatim, so their
composition is the persisted round trip. -/

/-- Two-digit zero-padded decimal of `n ∈ [0, 99]`. -/
def pad2 (n : Int) : String :=
  String.mk [Char.ofNat (48 + (n / 10 % 10).toNat), Char.ofNat (48 + (n % 10).toNat)]

/-- Four-digit zero-padded decimal of `n ∈ [0, 9999]`. -/
def pad4 (n : Int) : String :=
  String.mk [Char.ofNat (48 + (n / 1000 % 10).toNat), Char.ofNat (48 + (n / 100 % 10).toNat),
    Char.ofNat (48 + (n / 10 % 10).toNat), Char.ofNat (48 + (n % 10).toNat)]

/-- Model of Go `t.Format("2006-01-02T15:04:05Z07:00")` (the RFC3339 layout
used by the SQLite adapter). -/
def formatRFC3339 (t : GoTime) : String :=
  pad4 t.year ++ "-" ++ pad2 t.month ++ "-" ++ pad2 t.day ++ "T" ++
    pad2 t.hour ++ ":" ++ pad2 t.minute ++ ":" ++ pad2 t.second ++
    (if t.off = 0 then "Z"
     else (if t.off > 0 then "+" else "-") ++
       pad2 ((if t.off > 0 then t.off else -t.off) / 3600) ++ ":" ++
       pad2 ((if t.off > 0 then t.off else -t.off) % 3600 / 60))

/-- Go `json.Marshal` of a `[]string` (no escaping is modelled: the weekday
strings the adapter stores contain no characters JSON escapes; the empty list
stands for the nil slice, which marshals to `null`). -/
def marshalDaysJSON : List String → String
  | [] => "null"
  | l => "[" ++ String.intercalate "," (l.map fun s => "\"" ++ s ++ "\"") ++ "]"

/-- Item loop of the `[]string` JSON unmarshalling, fuel-indexed over the
remaining characters. -/
def parseItems : Nat → List Char → Option (List String)
  | 0, _ => none
  | fuel + 1, cs =>
    match cs with
    | '"' :: rest =>
      match rest.dropWhile (fun c => c ≠ '"') with
      | '"' :: ',' :: more =>
        (parseItems fuel more).map
          (fun l => String.mk (rest.takeWhile (fun c => c ≠ '"')) :: l)
      | ['"', ']'] => some [String.mk (rest.takeWhile (fun c => c ≠ '"'))]
      | _ => none
    | _ => none

/-- Go `json.Unmarshal` of the stored `recurrence_days` column into a
`[]string`. -/
def unmarshalDaysJSON (s : String) : Option (List String) :=
  match s.data with
  | ['n', 'u', 'l', 'l'] => some []
  | ['[', ']'] => some []
  | '[' :: rest => parseItems (rest.length + 1) rest
  | _ => none

/-- Go `parseTimeString` of the SQLite adapter: tries the RFC3339 layout, the
same layout with a literal trailing `Z`, and the two zoneless layouts (with
`T` and with a space separator), which parse as UTC. -/
def parseCivil (s : String) (sep : Char) (tail : List Char) : Option GoTime :=
  match s.data with
  | y1 :: y2 :: y3 :: y4 :: '-' :: m1 :: m2 :: '-' :: d1 :: d2 :: c ::
      h1 :: h2 :: ':' :: i1 :: i2 :: ':' :: s1 :: s2 :: rest =>
    if c = sep ∧ rest = tail ∧ y1.isDigit ∧ y2.isDigit ∧ y3.isDigit ∧
        y4.isDigit ∧ m1.isDigit ∧ m2.isDigit ∧ d1.isDigit ∧ d2.isDigit ∧
        h1.isDigit ∧ h2.isDigit ∧ i1.isDigit ∧ i2.isDigit ∧ s1.isDigit ∧
        s2.isDigit then
      let y := 1000 * digitVal y1 + 100 * digitVal y2 + 10 * digitVal y3 + digitVal y4
      let mo := 10 * digitVal m1 + digitVal m2
      let d := 10 * digitVal d1 + digitVal d2
      let h := 10 * digitVal h1 + digitVal h2
      let mi := 10 * digitVal i1 + digitVal i2
      let sec := 10 * digitVal s1 + digitVal s2
      if 1 ≤ mo ∧ mo ≤ 12 ∧ 1 ≤ d ∧ d ≤ daysInMonth y mo ∧ h ≤ 23 ∧
          mi ≤ 59 ∧ sec ≤ 59 then
        some ⟨y, mo, d, h * 3600 + mi * 60 + sec, 0⟩
      else none
    else none
  | _ => none

/-- Go `parseTimeString` (the adapter helper trying four layouts in order). -/
def parseTimeString (s : String) : Option GoTime :=
  match parseRFC3339 s with
  | some t => some t
  | none =>
    match parseCivil s 'T' ['Z'] with
    | some t => some t
    | none =>
      match parseCivil s 'T' [] with
      | some t => some t
      | none => parseCivil s ' ' []

/-- One persisted row of the `reminders` table. -/
structure ReminderRow where
  id : String
  title : String
  description : String
  due_date : Option String
  recurrence_type : String
  recurrence_days : String
  recurrence_date : Int
  recurrence_end_date : String
  completed : Bool
  completed_at : Option String
  family_id : String
  family_member : String
deriving Repr, DecidableEq

/-- The pure content of Go `SQLiteStorage.CreateReminder`: the column values
the `INSERT OR REPLACE` writes, including the far-future sentinel standing
for an empty recurrence end date. -/
def sqliteCreateReminder (r : HReminder) : ReminderRow :=
  ⟨r.id, r.title, r.description, r.due_date.map formatRFC3339,
    r.recurrence.type, marshalDaysJSON r.recurrence.days, r.recurrence.date,
    (if r.recurrence.end_date = "" then "2099-12-31T23:59:59Z"
     else r.recurrence.end_date),
    r.completed, r.completed_at.map formatRFC3339, r.family_id, r.family_member⟩

/-- Parsing of a nullable timestamp column: a null column stays `none`, a
present column must parse (`none` of the outer option is the error). -/
def parseOptTime : Option String → Option (Option GoTime)
  | none => some none
  | some s =>
    match parseTimeString s with
    | some t => some (some t)
    | none => none

/-- The pure content of Go `SQLiteStorage.GetReminder` on a scanned row:
parses the nullable timestamps, translates the sentinel end date back to the
empty string, and unmarshals the weekday list; `none` is the error return. -/
def sqliteGetReminder (row : ReminderRow) : Option HReminder :=
  (parseOptTime row.due_date).bind fun dd =>
  (parseOptTime row.completed_at).bind fun ca =>
  (unmarshalDaysJSON row.recurrence_days).bind fun days =>
  some ⟨row.id, row.title, row.description, dd,
    ⟨row.recurrence_type, days, row.recurrence_date,
      (if row.recurrence_end_date = "2099-12-31T23:59:59Z" then ""
       else row.recurrence_end_date)⟩,
    row.completed, ca, row.family_id, row.family_member⟩

/-! ## Claim-level helpers and concrete instances -/

/-- A sequence of single-field PATCH requests toggling the completion flag:
each element is the requested boolean together with the request clock. -/
def applyToggles (st : MemoryStorage) (id : String) :
    List (Bool × GoTime) → MemoryStorage
  | [] => st
  | (b, now) :: rest =>
    applyToggles (updateReminderHandler st id [("completed", JValue.bool b)] now).1
      id rest

/-- Whether a patch entry is recognised and applicable in
`UpdateReminderHandler`: a known key whose value has the type (and, for
`due_date` and `recurrence`, the content) the corresponding `case` arm
requires.  Exactly the entries this predicate rejects leave the fold state
untouched. -/
def entryApplies (k : String) (v : JValue) : Bool :=
  if k = "title" ∨ k = "description" ∨ k = "family_member" then
    match v with
    | JValue.str _ => true
    | _ => false
  else if k = "due_date" then
    match v with
    | JValue.str s => s = "" ∨ (parseRFC3339 s).isSome
    | _ => false
  else if k = "completed" then
    match v with
    | JValue.bool _ => true
    | _ => false
  else if k = "recurrence" then
    match v with
    | JValue.obj fields => (unmarshalRecurrence fields).isSome
    | _ => false
  else false

/-- Iterated `AddDate(0, 0, 1)` (the day-by-day scan of the weekly arm). -/
def dayIter (t : GoTime) : Nat → GoTime
  | 0 => t
  | k + 1 => (dayIter t k).addDate 0 0 1

/-- The seven lowercase English weekday names. -/
def weekdayNames : List String :=
  ["sunday", "monday", "tuesday", "wednesday", "thursday", "friday", "saturday"]

/-! ### Concrete instances used by counterexamples and witnesses -/

/-- A recurring (weekly) reminder as stored by the handler tier. -/
def exRecurringRem : HReminder :=
  ⟨"rem1", "Trash", "", none, ⟨"weekly", ["monday"], 0, ""⟩, false, none,
    "fam1", "Alice"⟩

/-- A non-recurring reminder already in the Done state. -/
def exDoneRem : HReminder :=
  ⟨"rem2", "Dishes", "", none, ⟨"once", [], 0, ""⟩, true,
    some ⟨2025, 1, 5, 43200, 0⟩, "fam1", "Bob"⟩

/-- A non-recurring reminder in the Pending state. -/
def exPendingRem : HReminder :=
  ⟨"rem3", "Mail", "", none, ⟨"once", [], 0, ""⟩, false, none, "fam1", "Cay"⟩

/-- A store holding the three example reminders under their ids. -/
def exStore : MemoryStorage :=
  ⟨[], [("rem1", exRecurringRem), ("rem2", exDoneRem), ("rem3", exPendingRem)],
    [], 0, 0, 0⟩

def exNow1 : GoTime := ⟨2025, 1, 6, 3600, 0⟩

def exNow2 : GoTime := ⟨2025, 1, 7, 7200, 0⟩

/-- The member page reminder of the C5 instance: weekly on Monday, a past
end date, no due date. -/
def exJSRem : JSReminder :=
  ⟨none, some ⟨"weekly", some ["monday"], 0, some "2020-01-01T00:00:00Z"⟩⟩

/-- Monday 2024-06-03, local midnight (the reference day). -/
def exMonday : GoTime := ⟨2024, 6, 3, 0, 0⟩

/-- A weekly reminder (model of `reminder.go`) whose stored weekday is the
mixed-case `"Monday"`. -/
def exMixedCaseRem : Reminder :=
  ⟨"rem4", "Bins", "", ⟨2024, 6, 1, 36000, 0⟩, ⟨"weekly", ["Monday"], 0, ""⟩,
    false, none, "fam1", "Alice"⟩

/-- A weekly reminder with the lowercase `"monday"`. -/
def exWeeklyRem : Reminder :=
  ⟨"rem5", "Bins", "", ⟨2024, 6, 1, 36000, 0⟩, ⟨"weekly", ["monday"], 0, ""⟩,
    false, none, "fam1", "Alice"⟩

/-- Sunday 2024-06-02, local midnight. -/
def exSunday : GoTime := ⟨2024, 6, 2, 0, 0⟩

/-- A monthly reminder on day 15 whose due date carries the clock 10:00:00. -/
def exMonthlyRem : Reminder :=
  ⟨"rem6", "Rent", "", ⟨2024, 1, 10, 36000, 0⟩, ⟨"monthly", [], 15, ""⟩,
    false, none, "fam1", "Alice"⟩

/-- 2024-01-15 08:00:00, a 15th earlier in the day than the stored clock. -/
def exJan15 : GoTime := ⟨2024, 1, 15, 28800, 0⟩

/-- A reminder with an empty recurrence end date, for the round-trip claims. -/
def exRoundTripRem : HReminder :=
  ⟨"rem7", "Lawn", "", none, ⟨"weekly", ["monday"], 0, ""⟩, false, none,
    "fam1", "Alice"⟩

/-- A reminder whose genuine end date equals the sentinel date. -/
def exSentinelRem : HReminder :=
  ⟨"rem8", "Tax", "", none,
    ⟨"weekly", ["monday"], 0, "2099-12-31T23:59:59Z"⟩, false, none,
    "fam1", "Alice"⟩

/-! ## Association-map lemmas -/

theorem lookup_mapInsert_self {α : Type} (k : String) (v : α)
    (l : List (String × α)) : (mapInsert k v l).lookup k = some v := by
  induction l with
  | nil => simp [mapInsert]
  | cons hd tl ih =>
    unfold mapInsert
    rcases Decidable.em (hd.1 = k) with h | h
    · simp [h, List.lookup]
    · have hne : (k == hd.1) = false := by
        simp only [beq_eq_false_iff_ne, ne_eq]
        exact fun hh => h hh.symm
      rw [if_neg h]
      simp [List.lookup, hne, ih]

theorem mapInsert_length_of_mem {α : Type} (k : String) (v : α)
    (l : List (String × α)) (h : (l.lookup k).isSome) :
    (mapInsert k v l).length = l.length := by
  induction l with
  | nil => simp [List.lookup] at h
  | cons hd tl ih =>
    unfold mapInsert
    rcases Decidable.em (hd.1 = k) with h1 | h1
    · simp [h1]
    · have hne : (k == hd.1) = false := by
        simp only [beq_eq_false_iff_ne, ne_eq]
        exact fun hh => h1 hh.symm
      rw [if_neg h1]
      have hh : (List.lookup k tl).isSome := by
        simpa [List.lookup, hne] using h
      simp [List.length_cons, ih hh]

theorem mapInsert_length_of_not_mem {α : Type} (k : String) (v : α)
    (l : List (String × α)) (h : l.lookup k = none) :
    (mapInsert k v l).length = l.length + 1 := by
  induction l with
  | nil => simp [mapInsert]
  | cons hd tl ih =>
    unfold mapInsert
    rcases Decidable.em (hd.1 = k) with h1 | h1
    · simp [List.lookup, h1] at h
    · have hne : (k == hd.1) = false := by
        simp only [beq_eq_false_iff_ne, ne_eq]
        exact fun hh => h1 hh.symm
      rw [if_neg h1]
      have hh : List.lookup k tl = none := by
        simpa [List.lookup, hne] using h
      simp [List.length_cons, ih hh]

/-- Re-inserting under an existing key never grows the map. -/
theorem mapInsert_twice_length {α : Type} (k : String) (v1 v2 : α)
    (l : List (String × α)) :
    (mapInsert k v2 (mapInsert k v1 l)).length = (mapInsert k v1 l).length :=
  mapInsert_length_of_mem k v2 _ (by rw [lookup_mapInsert_self]; rfl)

/-! ## Equation lemmas for the patch-field dispatch -/

theorem applyPatchEntry_completed (st : MemoryStorage) (r : HReminder)
    (updated : Bool) (now : GoTime) (b : Bool) :
    applyPatchEntry st r updated now "completed" (JValue.bool b) =
      (st.createCompletionEvent
        ⟨"cev" ++ toString (st.getCompletionEventIDCounter + 1), r.id, now,
          r.family_member⟩,
        (if r.isRecurring then
          if b then { r with completed_at := some now, completed := false }
          else { r with completed_at := none, completed := false }
        else
          if b ∧ !r.completed then r.markCompleted now
          else if !b ∧ r.completed then
            { r with completed := false, completed_at := none }
          else r),
        (if r.isRecurring then true
         else if b ∧ !r.completed then true
         else if !b ∧ r.completed then true
         else updated)) := by
  rfl

theorem updateFold_singleton (st : MemoryStorage) (r : HReminder)
    (updated : Bool) (now : GoTime) (k : String) (v : JValue) :
    updateFold st r updated now [(k, v)] = applyPatchEntry st r updated now k v := by
  rfl

/-- The handler on a present reminder, written as its fold. -/
theorem updateReminderHandler_some (st : MemoryStorage) (id : String)
    (patch : List (String × JValue)) (now : GoTime) (r : HReminder)
    (h : st.getReminder id = some r) :
    updateReminderHandler st id patch now =
      ((if (updateFold st r false now patch).2.2 then
          (updateFold st r false now patch).1.createReminder
            (updateFold st r false now patch).2.1
        else (updateFold st r false now patch).1),
        some (updateFold st r false now patch).2.1) := by
  unfold updateReminderHandler
  rw [h]

/-! ## Completion-toggle behaviour of the PATCH handler -/

theorem record_isRecurring (r : HReminder) (c : Bool) (ca : Option GoTime) :
    ({ r with completed := c, completed_at := ca } : HReminder).isRecurring =
      r.isRecurring := rfl

/-- Effect of a single completion toggle on a recurring reminder: the
response and the stored entity agree, `completed` is forced to `false`, and
`completed_at` is overwritten to `now` (request `true`) or cleared (request
`false`). -/
theorem toggle_recurring (st : MemoryStorage) (id : String) (r : HReminder)
    (h0 : st.getReminder id = some r) (hid : r.id = id)
    (hrec : r.isRecurring = true) (b : Bool) (now : GoTime) :
    (updateReminderHandler st id [("completed", JValue.bool b)] now).2 =
      some { r with completed := false,
                    completed_at := if b then some now else none } ∧
    (updateReminderHandler st id [("completed", JValue.bool b)] now).1.getReminder
        id =
      some { r with completed := false,
                    completed_at := if b then some now else none } := by
  rw [updateReminderHandler_some st id _ now r h0]
  cases b <;>
    simp [updateFold_singleton, applyPatchEntry_completed, hrec,
      MemoryStorage.getReminder, MemoryStorage.createReminder,
      MemoryStorage.createCompletionEvent, hid, lookup_mapInsert_self]

theorem applyToggles_recurring_inv (id : String) :
    ∀ (toggles : List (Bool × GoTime)) (st : MemoryStorage) (r : HReminder),
      st.getReminder id = some r → r.id = id → r.isRecurring = true →
      r.completed = false →
      ∃ r1, (applyToggles st id toggles).getReminder id = some r1 ∧
        r1.id = id ∧ r1.isRecurring = true ∧ r1.completed = false := by
  intro toggles
  induction toggles with
  | nil =>
    intro st r h0 hid hrec hc
    exact ⟨r, h0, hid, hrec, hc⟩
  | cons hd tl ih =>
    intro st r h0 hid hrec hc
    obtain ⟨b, now⟩ := hd
    have hstep := toggle_recurring st id r h0 hid hrec b now
    unfold applyToggles
    exact ih _ _ hstep.2 hid hrec rfl

/-- C1: for a recurring reminder, any sequence of PATCH completion-flag
toggles leaves `completed` equal to `false`, and one further toggle always
overwrites `completed_at` with the request clock (`true`) or clears it
(`false`). -/
theorem recurring_completion_toggles
    (st : MemoryStorage) (id : String) (r0 : HReminder)
    (h0 : st.getReminder id = some r0) (hid : r0.id = id)
    (hrec : r0.isRecurring = true) (hc : r0.completed = false)
    (toggles : List (Bool × GoTime)) :
    (∃ r1, (applyToggles st id toggles).getReminder id = some r1 ∧
       r1.completed = false) ∧
    (∀ b now r2,
      (updateReminderHandler (applyToggles st id toggles) id
          [("completed", JValue.bool b)] now).2 = some r2 →
      r2.completed = false ∧ r2.completed_at = (if b then some now else none)) := by
  obtain ⟨r1, hl, hid1, hrec1, hc1⟩ :=
    applyToggles_recurring_inv id toggles st r0 h0 hid hrec hc
  refine ⟨⟨r1, hl, hc1⟩, ?_⟩
  intro b now r2 h2
  rw [(toggle_recurring _ id r1 hl hid1 hrec1 b now).1] at h2
  injection h2 with h2
  rw [← h2]
  exact ⟨rfl, rfl⟩

/-- Witness for C1 at a concrete recurring reminder and a concrete
true-then-false toggle sequence. -/
theorem recurring_completion_toggles_witness :
    exStore.getReminder "rem1" = some exRecurringRem ∧
    exRecurringRem.isRecurring = true ∧
    (∃ r1, (applyToggles exStore "rem1"
        [(true, exNow1), (false, exNow2)]).getReminder "rem1" = some r1 ∧
      r1.completed = false) :=
  ⟨by decide, by decide,
    (recurring_completion_toggles exStore "rem1" exRecurringRem (by decide)
      (by decide) (by decide) (by decide) [(true, exNow1), (false, exNow2)]).1⟩

theorem toggle_nonrecurring (st : MemoryStorage) (id : String) (r : HReminder)
    (h0 : st.getReminder id = some r) (hnr : r.isRecurring = false)
    (b : Bool) (now : GoTime) :
    (updateReminderHandler st id [("completed", JValue.bool b)] now).2 =
      some (if b ∧ !r.completed then
              { r with completed := true, completed_at := some now }
            else if !b ∧ r.completed then
              { r with completed := false, completed_at := none }
            else r) ∧
    (b = r.completed →
      (updateReminderHandler st id [("completed", JValue.bool b)] now).1.reminders =
        st.reminders) := by
  rw [updateReminderHandler_some st id _ now r h0]
  cases b <;> rcases hc : r.completed with _ | _ <;>
    simp [updateFold_singleton, applyPatchEntry_completed, hnr, hc,
      HReminder.markCompleted, MemoryStorage.createCompletionEvent]

/-- C3: on a non-recurring reminder a completion toggle transitions only when
the requested boolean differs from the current `completed`: Pending with
`true` becomes Done at `now`, Done with `false` clears both fields, and in
the remaining cases both completion fields are unchanged (and no reminder
write happens). -/
theorem nonrecurring_toggle_transitions (st : MemoryStorage) (id : String)
    (r0 : HReminder) (h0 : st.getReminder id = some r0)
    (hnr : r0.isRecurring = false) (b : Bool) (now : GoTime) :
    ∀ r2, (updateReminderHandler st id [("completed", JValue.bool b)] now).2 =
        some r2 →
      ((b = true ∧ r0.completed = false) →
        r2.completed = true ∧ r2.completed_at = some now) ∧
      ((b = false ∧ r0.completed = true) →
        r2.completed = false ∧ r2.completed_at = none) ∧
      (b = r0.completed →
        r2.completed = r0.completed ∧ r2.completed_at = r0.completed_at ∧
          (updateReminderHandler st id [("completed", JValue.bool b)]
            now).1.reminders = st.reminders) := by
  intro r2 h2
  have hstep := toggle_nonrecurring st id r0 h0 hnr b now
  rw [hstep.1] at h2
  injection h2 with h2
  cases b <;> rcases hc : r0.completed with _ | _ <;>
    simp_all <;> rw [← h2] <;> simp_all

/-- Witness for C3: marking the Pending example reminder complete. -/
theorem nonrecurring_toggle_transitions_witness :
    exStore.getReminder "rem3" = some exPendingRem ∧
    exPendingRem.isRecurring = false ∧
    (((updateReminderHandler exStore "rem3" [("completed", JValue.bool true)]
        exNow1).2.map (fun r2 => (r2.completed, r2.completed_at))) =
      some (true, some exNow1)) := by
  refine ⟨by decide, by decide, ?_⟩
  have h2 : (updateReminderHandler exStore "rem3"
      [("completed", JValue.bool true)] exNow1).2 =
      some { exPendingRem with completed := true, completed_at := some exNow1 } := by
    decide
  have h3 := nonrecurring_toggle_transitions exStore "rem3" exPendingRem
    (by decide) (by decide) true exNow1 _ h2
  rw [h2]
  simp [(h3.1 ⟨rfl, by decide⟩).1, (h3.1 ⟨rfl, by decide⟩).2]

theorem toggle_event (st : MemoryStorage) (id : String) (r : HReminder)
    (h0 : st.getReminder id = some r) (b : Bool) (now : GoTime) :
    (updateReminderHandler st id [("completed", JValue.bool b)] now).1.completionEvents =
      mapInsert ("cev" ++ toString (st.completionEventIDCounter + 1))
        ⟨"cev" ++ toString (st.completionEventIDCounter + 1), r.id, now,
          r.family_member⟩ st.completionEvents ∧
    (updateReminderHandler st id [("completed", JValue.bool b)]
        now).1.completionEventIDCounter = st.completionEventIDCounter := by
  rw [updateReminderHandler_some st id _ now r h0]
  rcases hrec : r.isRecurring with _ | _ <;> cases b <;>
    rcases hc : r.completed with _ | _ <;>
    simp [updateFold_singleton, applyPatchEntry_completed, hrec, hc,
      MemoryStorage.createCompletionEvent, MemoryStorage.createReminder,
      MemoryStorage.getCompletionEventIDCounter]

/-- C2 counterexample: two `completed=true` PATCH toggles on the already-Done
non-recurring example reminder leave one stored CompletionEvent, not two. -/
theorem completion_event_audit_counterexample :
    (applyToggles exStore "rem2"
      [(true, exNow1), (true, exNow2)]).completionEvents.length = 1 ∧
    ¬ (applyToggles exStore "rem2"
      [(true, exNow1), (true, exNow2)]).completionEvents.length = 2 := by
  decide

/-- C2 amended: every boolean completion toggle upserts a CompletionEvent
with `completed_by` the reminder member and `completed_at` the request clock,
but always under the key `cev(counter+1)` with the counter never advanced;
hence a second toggle overwrites the first event and the stored audit log
does not grow. -/
theorem completion_event_per_toggle (st : MemoryStorage) (id : String)
    (r0 : HReminder) (h0 : st.getReminder id = some r0)
    (b1 b2 : Bool) (now1 now2 : GoTime) :
    (updateReminderHandler st id [("completed", JValue.bool b1)]
        now1).1.completionEvents =
      mapInsert ("cev" ++ toString (st.completionEventIDCounter + 1))
        ⟨"cev" ++ toString (st.completionEventIDCounter + 1), r0.id, now1,
          r0.family_member⟩ st.completionEvents ∧
    (∀ r1,
      (updateReminderHandler st id [("completed", JValue.bool b1)]
          now1).1.getReminder id = some r1 →
      (updateReminderHandler
          (updateReminderHandler st id [("completed", JValue.bool b1)] now1).1
          id [("completed", JValue.bool b2)] now2).1.completionEvents =
        mapInsert ("cev" ++ toString (st.completionEventIDCounter + 1))
          ⟨"cev" ++ toString (st.completionEventIDCounter + 1), r1.id, now2,
            r1.family_member⟩
          (updateReminderHandler st id [("completed", JValue.bool b1)]
            now1).1.completionEvents ∧
      (updateReminderHandler
          (updateReminderHandler st id [("completed", JValue.bool b1)] now1).1
          id [("completed", JValue.bool b2)] now2).1.completionEvents.length =
        (updateReminderHandler st id [("completed", JValue.bool b1)]
          now1).1.completionEvents.length) := by
  have h1 := toggle_event st id r0 h0 b1 now1
  refine ⟨h1.1, ?_⟩
  intro r1 hr1
  have h2 := toggle_event _ id r1 hr1 b2 now2
  rw [h1.2] at h2
  refine ⟨h2.1, ?_⟩
  rw [h2.1, h1.1]
  exact mapInsert_twice_length _ _ _ _

/-- Witness for the amended C2 at the concrete Done reminder: the second
toggle does not grow the stored audit log. -/
theorem completion_event_per_toggle_witness :
    exStore.getReminder "rem2" = some exDoneRem ∧
    (updateReminderHandler
        (updateReminderHandler exStore "rem2" [("completed", JValue.bool true)]
          exNow1).1 "rem2" [("completed", JValue.bool true)]
        exNow2).1.completionEvents.length =
      (updateReminderHandler exStore "rem2" [("completed", JValue.bool true)]
        exNow1).1.completionEvents.length :=
  ⟨by decide,
    ((completion_event_per_toggle exStore "rem2" exDoneRem (by decide) true true
      exNow1 exNow2).2 exDoneRem (by decide)).2⟩

theorem applyPatchEntry_skip (st : MemoryStorage) (r : HReminder)
    (updated : Bool) (now : GoTime) (k : String) (v : JValue)
    (h : entryApplies k v = false) :
    applyPatchEntry st r updated now k v = (st, r, updated) := by
  by_cases h1 : k = "title"
  · subst h1; cases v <;> simp_all [entryApplies, applyPatchEntry]
  · by_cases h2 : k = "description"
    · subst h2; cases v <;> simp_all [entryApplies, applyPatchEntry]
    · by_cases h3 : k = "due_date"
      · subst h3
        cases v with
        | str s =>
          rcases hp : parseRFC3339 s with _ | t <;>
            simp_all [entryApplies, applyPatchEntry]
        | _ => simp_all [entryApplies, applyPatchEntry]
      · by_cases h4 : k = "completed"
        · subst h4; cases v <;> simp_all [entryApplies, applyPatchEntry]
        · by_cases h5 : k = "recurrence"
          · subst h5
            cases v with
            | obj fields =>
              rcases hu : unmarshalRecurrence fields with _ | rp <;>
                simp_all [entryApplies, applyPatchEntry]
            | _ => simp_all [entryApplies, applyPatchEntry]
          · by_cases h6 : k = "family_member"
            · subst h6; cases v <;> simp_all [entryApplies, applyPatchEntry]
            · simp [applyPatchEntry, h1, h2, h3, h4, h5, h6]

theorem updateFold_skip_all (now : GoTime) :
    ∀ (patch : List (String × JValue)) (st : MemoryStorage) (r : HReminder)
      (u : Bool), (∀ kv ∈ patch, entryApplies kv.1 kv.2 = false) →
      updateFold st r u now patch = (st, r, u) := by
  intro patch
  induction patch with
  | nil => intro st r u _; rfl
  | cons hd tl ih =>
    intro st r u hall
    obtain ⟨k, v⟩ := hd
    unfold updateFold
    rw [applyPatchEntry_skip st r u now k v (hall (k, v) (by simp))]
    exact ih st r u (fun kv hkv => hall kv (by simp [hkv]))

/-- C9: unrecognised or type-incompatible patch entries are skipped with no
effect at any point of the field loop, and a PATCH whose entries are all
unrecognised or inapplicable performs no persistence write and answers with
the entity unchanged. -/
theorem patch_unknown_fields_frame (st : MemoryStorage) (id : String)
    (r0 : HReminder) (patch : List (String × JValue)) (now : GoTime)
    (h0 : st.getReminder id = some r0)
    (hall : ∀ kv ∈ patch, entryApplies kv.1 kv.2 = false) :
    updateReminderHandler st id patch now = (st, some r0) ∧
    (∀ (st' : MemoryStorage) (r' : HReminder) (u' : Bool) (k : String)
      (v : JValue) (rest : List (String × JValue)), entryApplies k v = false →
      updateFold st' r' u' now ((k, v) :: rest) = updateFold st' r' u' now rest) := by
  constructor
  · rw [updateReminderHandler_some st id patch now r0 h0]
    rw [updateFold_skip_all now patch st r0 false hall]
    simp
  · intro st' r' u' k v rest hskip
    unfold updateFold
    rw [applyPatchEntry_skip st' r' u' now k v hskip]
    cases rest <;> rfl

/-- Witness for C9: a patch holding one unknown key and one type-mismatched
known key changes nothing. -/
theorem patch_unknown_fields_frame_witness :
    exStore.getReminder "rem3" = some exPendingRem ∧
    updateReminderHandler exStore "rem3"
      [("bogus", JValue.num 1), ("title", JValue.num 2)] exNow1 =
      (exStore, some exPendingRem) :=
  ⟨by decide,
    (patch_unknown_fields_frame exStore "rem3" exPendingRem
      [("bogus", JValue.num 1), ("title", JValue.num 2)] exNow1 (by decide)
      (by decide)).1⟩

theorem sqliteGetReminder_end_date (row : ReminderRow) (r2 : HReminder)
    (h2 : sqliteGetReminder row = some r2) :
    r2.recurrence.end_date =
      (if row.recurrence_end_date = "2099-12-31T23:59:59Z" then ""
       else row.recurrence_end_date) := by
  unfold sqliteGetReminder at h2
  simp only [Option.bind_eq_some, Option.some.injEq] at h2
  obtain ⟨dd, hdd, ca, hca, days, hdays, h2⟩ := h2
  rw [← h2]

/-- C7: persisting a reminder whose recurrence has an empty end date stores
the far-future sentinel, and any successful read-back reports the empty end
date again. -/
theorem sqlite_empty_end_date_roundtrip (r : HReminder)
    (h : r.recurrence.end_date = "") :
    (sqliteCreateReminder r).recurrence_end_date = "2099-12-31T23:59:59Z" ∧
    ∀ r2, sqliteGetReminder (sqliteCreateReminder r) = some r2 →
      r2.recurrence.end_date = "" := by
  have hrow : (sqliteCreateReminder r).recurrence_end_date =
      "2099-12-31T23:59:59Z" := by
    simp [sqliteCreateReminder, h]
  refine ⟨hrow, fun r2 h2 => ?_⟩
  rw [sqliteGetReminder_end_date _ r2 h2, hrow]
  simp

/-- Witness for C7: the concrete weekly reminder with no end date decodes to
itself, with the empty end date restored. -/
theorem sqlite_empty_end_date_roundtrip_witness :
    exRoundTripRem.recurrence.end_date = "" ∧
    sqliteGetReminder (sqliteCreateReminder exRoundTripRem) =
      some exRoundTripRem ∧
    exRoundTripRem.recurrence.end_date = "" :=
  ⟨by decide, by decide,
    (sqlite_empty_end_date_roundtrip exRoundTripRem (by decide)).2
      exRoundTripRem (by decide)⟩

/-- C10: the sentinel translation is lossy — a genuine recurrence end date
equal to `2099-12-31T23:59:59Z` is stored verbatim and read back as the empty
string, an unbounded recurrence. -/
theorem sqlite_sentinel_end_date_lossy (r : HReminder)
    (h : r.recurrence.end_date = "2099-12-31T23:59:59Z") :
    (sqliteCreateReminder r).recurrence_end_date = "2099-12-31T23:59:59Z" ∧
    ∀ r2, sqliteGetReminder (sqliteCreateReminder r) = some r2 →
      r2.recurrence.end_date = "" := by
  have hrow : (sqliteCreateReminder r).recurrence_end_date =
      "2099-12-31T23:59:59Z" := by
    simp [sqliteCreateReminder, h]
  refine ⟨hrow, fun r2 h2 => ?_⟩
  rw [sqliteGetReminder_end_date _ r2 h2, hrow]
  simp

/-- Witness for C10: the concrete reminder bounded exactly at the sentinel
date loses its bound on read-back. -/
theorem sqlite_sentinel_end_date_lossy_witness :
    exSentinelRem.recurrence.end_date = "2099-12-31T23:59:59Z" ∧
    sqliteGetReminder (sqliteCreateReminder exSentinelRem) =
      some ⟨"rem8", "Tax", "", none, ⟨"weekly", ["monday"], 0, ""⟩, false,
        none, "fam1", "Alice"⟩ ∧
    (⟨"rem8", "Tax", "", none, ⟨"weekly", ["monday"], 0, ""⟩, false, none,
      "fam1", "Alice"⟩ : HReminder).recurrence.end_date = "" :=
  ⟨by decide, by decide,
    (sqlite_sentinel_end_date_lossy exSentinelRem (by decide)).2 _ (by decide)⟩

/-- C5 counterexample: the weekly-Monday reminder with the past end date
`2020-01-01` is still reported due on Monday 2024-06-03, a reference date
strictly after its end date. -/
theorem isDueToday_after_end_date_counterexample :
    isDueToday exJSRem exMonday = true ∧
    exMonday.weekdayName = "monday" ∧
    parseRFC3339 "2020-01-01T00:00:00Z" = some ⟨2020, 1, 1, 0, 0⟩ ∧
    (⟨2020, 1, 1, 0, 0⟩ : GoTime).abs < exMonday.abs := by
  decide

/-- C5 amended: for a weekly reminder on `["monday"]` with no due date,
`isDueToday` is true exactly on Mondays, for every reference date and
independently of `end_date` — the evaluator never consults the end date, so
it does not turn false after it. -/
theorem isDueToday_weekly_monday (today : GoTime) (dt : Int)
    (ed : Option String) :
    isDueToday ⟨none, some ⟨"weekly", some ["monday"], dt, ed⟩⟩ today =
      (today.weekdayName == "monday") := by
  unfold isDueToday isDueToday.isDueTodayRecurrence
  rcases Decidable.em (today.weekdayName = "monday") with h | h
  · simp [h]
  · simp [h, beq_eq_false_iff_ne.mpr h]

theorem weekdayName_mem (t : GoTime) : t.weekdayName ∈ weekdayNames := by
  unfold GoTime.weekdayName weekdayNames
  split_ifs <;> simp

theorem weeklyScan_none_of_no_lower (days : List String) (due : GoTime)
    (hdays : ∀ d ∈ days, d ∉ weekdayNames) :
    ∀ (fuel : Nat) (next : GoTime), weeklyScan days due next fuel = none := by
  intro fuel
  induction fuel with
  | zero => intro next; rfl
  | succ n ih =>
    intro next
    unfold weeklyScan
    have hc : days.contains (next.addDate 0 0 1).weekdayName = false := by
      rcases hmem : days.contains (next.addDate 0 0 1).weekdayName with _ | _
      · rfl
      · exact absurd (weekdayName_mem (next.addDate 0 0 1))
          (hdays _ (List.elem_iff.mp hmem))
    simp only [hc, Bool.false_eq_true, if_false]
    exact ih _

/-- C8 counterexample: creation-time validation accepts the mixed-case
weekday `"Monday"`, yet `NextOccurrence` finds no occurrence for it even
though the following Monday lies within the seven scanned days — while the
lowercase `"monday"` reminder does match that Monday. -/
theorem weekday_case_counterexample :
    isValidWeekday "Monday" = true ∧
    exMixedCaseRem.recurrence.days = ["Monday"] ∧
    exMixedCaseRem.nextOccurrence exSunday = none ∧
    exWeeklyRem.nextOccurrence exSunday = some ⟨2024, 6, 3, 36000, 0⟩ := by
  decide

/-- C8 amended: weekday matching in `NextOccurrence` is case-sensitive — the
scanned weekday name is lowercased but the stored entries are compared
verbatim, so a weekly reminder none of whose entries is one of the seven
lowercase names (for instance `["Monday"]`, which validation accepts) never
yields an occurrence. -/
theorem weekday_matching_case_sensitive (r : Reminder) (after : GoTime)
    (htype : r.recurrence.type = "weekly")
    (hgate : endDateCut r.recurrence.end_date after = false)
    (hdays : ∀ d ∈ r.recurrence.days, d ∉ weekdayNames) :
    r.nextOccurrence after = none := by
  unfold Reminder.nextOccurrence
  rw [htype, hgate]
  simp [weeklyScan_none_of_no_lower r.recurrence.days r.due_date hdays]

/-- Witness for the amended C8 at the concrete mixed-case reminder. -/
theorem weekday_matching_case_sensitive_witness :
    exMixedCaseRem.recurrence.type = "weekly" ∧
    exMixedCaseRem.nextOccurrence exSunday = none :=
  ⟨by decide,
    weekday_matching_case_sensitive exMixedCaseRem exSunday (by decide)
      (by decide) (by decide)⟩

/-- C4 counterexample: the monthly day-15 reminder, asked for the next
occurrence after 08:00 on Monday 2024-01-15, answers 10:00 of that same
15th of January — the same month, not a later one. -/
theorem monthly_same_month_counterexample :
    exMonthlyRem.nextOccurrence exJan15 = some ⟨2024, 1, 15, 36000, 0⟩ ∧
    exJan15.year = 2024 ∧ exJan15.month = 1 ∧ exJan15.day = 15 ∧
    exMonthlyRem.recurrence.date = 15 := by
  decide

/-- C4 amended: the monthly arm builds the candidate in the month of `after`
at day `recurrence.date` with the stored clock and advances one calendar
month only when the candidate is strictly before `after`; when `after` lies
on the 15th no later in the day than the stored clock, the candidate of that
same month — possibly equal to `after` itself — is returned. -/
theorem monthly_advance_only_when_before (r : Reminder) (after : GoTime)
    (htype : r.recurrence.type = "monthly")
    (hgate : endDateCut r.recurrence.end_date after = false) :
    r.nextOccurrence after =
      some (if (goDate after.year after.month r.recurrence.date r.due_date.hour
            r.due_date.minute r.due_date.second after.off).abs < after.abs
        then (goDate after.year after.month r.recurrence.date r.due_date.hour
            r.due_date.minute r.due_date.second after.off).addDate 0 1 0
        else goDate after.year after.month r.recurrence.date r.due_date.hour
            r.due_date.minute r.due_date.second after.off) ∧
    (r.recurrence.date = 15 → after.valid → r.due_date.valid →
      after.day = 15 → after.sod ≤ r.due_date.sod →
      r.nextOccurrence after =
        some ⟨after.year, after.month, 15, r.due_date.sod, after.off⟩) := by
  have harm : r.nextOccurrence after =
      some (if (goDate after.year after.month r.recurrence.date r.due_date.hour
            r.due_date.minute r.due_date.second after.off).abs < after.abs
        then (goDate after.year after.month r.recurrence.date r.due_date.hour
            r.due_date.minute r.due_date.second after.off).addDate 0 1 0
        else goDate after.year after.month r.recurrence.date r.due_date.hour
            r.due_date.minute r.due_date.second after.off) := by
    unfold Reminder.nextOccurrence
    rw [htype, hgate]
    rfl
  refine ⟨harm, fun hdate hva hvd hday hsod => ?_⟩
  obtain ⟨hm1, hm2, _, _, has1, has2⟩ := hva
  obtain ⟨_, _, _, _, hds1, hds2⟩ := hvd
  have hsum := hms_sod r.due_date
  have hcand : goDate after.year after.month r.recurrence.date r.due_date.hour
      r.due_date.minute r.due_date.second after.off =
      ⟨after.year, after.month, 15, r.due_date.sod, after.off⟩ := by
    rw [hdate]
    rw [goDate_id after.year after.month 15 r.due_date.hour r.due_date.minute
      r.due_date.second after.off hm1 hm2 (by omega)
      (by have := daysInMonth_bounds after.year after.month; omega)
      (by omega) (by omega)]
    rw [show r.due_date.hour * 3600 + r.due_date.minute * 60 +
      r.due_date.second = r.due_date.sod from hsum]
  rw [harm, hcand]
  rw [if_neg]
  unfold GoTime.abs
  simp only []
  rw [← hday]
  omega

/-- Witness for the amended C4 at the concrete day-15 instance. -/
theorem monthly_advance_only_when_before_witness :
    exMonthlyRem.recurrence.type = "monthly" ∧ exJan15.day = 15 ∧
    exMonthlyRem.nextOccurrence exJan15 =
      some ⟨exJan15.year, exJan15.month, 15, exMonthlyRem.due_date.sod,
        exJan15.off⟩ :=
  ⟨by decide, by decide,
    (monthly_advance_only_when_before exMonthlyRem exJan15 (by decide)
      (by decide)).2 (by decide) (by decide) (by decide) (by decide)
      (by decide)⟩

theorem dayIter_shift (t : GoTime) :
    ∀ k : Nat, dayIter (t.addDate 0 0 1) k = dayIter t (k + 1) := by
  intro k
  induction k with
  | zero => rfl
  | succ n ih =>
    show (dayIter (t.addDate 0 0 1) n).addDate 0 0 1 = dayIter t (n + 1 + 1)
    rw [ih]
    rfl

theorem weeklyScan_succ (days : List String) (due next : GoTime) (i : Nat) :
    weeklyScan days due next (i + 1) =
      (if days.contains (next.addDate 0 0 1).weekdayName then
        some (goDate (next.addDate 0 0 1).year (next.addDate 0 0 1).month
          (next.addDate 0 0 1).day due.hour due.minute due.second
          (next.addDate 0 0 1).off)
      else weeklyScan days due (next.addDate 0 0 1) i) := by
  rfl

/-- The full behaviour of the weekly scan: on success it returns the first of
the next `fuel` days whose weekday name is listed, carrying the due clock and
landing strictly after the scan origin; it returns `none` exactly when none
of those days is listed. -/
theorem weeklyScan_spec (days : List String) (due : GoTime)
    (hd1 : 0 ≤ due.sod) (hd2 : due.sod < 86400) :
    ∀ (fuel : Nat) (next : GoTime), next.valid →
      (∀ t, weeklyScan days due next fuel = some t →
        ∃ k, 1 ≤ k ∧ k ≤ fuel ∧
          days.contains (dayIter next k).weekdayName = true ∧
          (∀ j, 1 ≤ j → j < k →
            days.contains (dayIter next j).weekdayName = false) ∧
          t = ⟨(dayIter next k).year, (dayIter next k).month,
               (dayIter next k).day, due.sod, next.off⟩ ∧
          next.abs < t.abs) ∧
      (weeklyScan days due next fuel = none ↔
        ∀ k, 1 ≤ k → k ≤ fuel →
          days.contains (dayIter next k).weekdayName = false) := by
  intro fuel
  induction fuel with
  | zero =>
    intro next hv
    constructor
    · intro t ht
      exact absurd ht (by simp [weeklyScan])
    · constructor
      · intro _ k hk1 hk2
        omega
      · intro _
        rfl
  | succ n ih =>
    intro next hv
    have hv' := addDate_one_valid next hv
    have habs' := addDate_one_abs next hv
    have hoff' := addDate_one_off next hv
    have hsod' := addDate_one_sod next hv
    obtain ⟨ihsome, ihnone⟩ := ih (next.addDate 0 0 1) hv'
    have hone : dayIter next 1 = next.addDate 0 0 1 := rfl
    rcases hc : days.contains (next.addDate 0 0 1).weekdayName with _ | _
    · -- no match on the first scanned day: recurse
      have hrec : weeklyScan days due next (n + 1) =
          weeklyScan days due (next.addDate 0 0 1) n := by
        rw [weeklyScan_succ]
        simp only [hc, Bool.false_eq_true, if_false]
      constructor
      · intro t ht
        rw [hrec] at ht
        obtain ⟨k, hk1, hk2, hck, hmin, hteq, habs⟩ := ihsome t ht
        refine ⟨k + 1, by omega, by omega, ?_, ?_, ?_, ?_⟩
        · rw [← dayIter_shift next k] at *
          exact hck
        · intro j hj1 hj2
          rcases Nat.eq_or_lt_of_le hj1 with hj | hj
          · rw [← hj, hone]
            exact hc
          · have := hmin (j - 1) (by omega) (by omega)
            rw [dayIter_shift next (j - 1)] at this
            rw [show j - 1 + 1 = j by omega] at this
            exact this
        · rw [← dayIter_shift next k, ← hoff']
          exact hteq
        · omega
      · rw [hrec, ihnone]
        constructor
        · intro hall k hk1 hk2
          rcases Nat.eq_or_lt_of_le hk1 with hk | hk
          · rw [← hk, hone]
            exact hc
          · have := hall (k - 1) (by omega) (by omega)
            rw [dayIter_shift next (k - 1)] at this
            rw [show k - 1 + 1 = k by omega] at this
            exact this
        · intro hall k hk1 hk2
          have := hall (k + 1) (by omega) (by omega)
          rw [← dayIter_shift next k] at this
          exact this
    · -- the first scanned day matches
      have hres : weeklyScan days due next (n + 1) =
          some (goDate (next.addDate 0 0 1).year (next.addDate 0 0 1).month
            (next.addDate 0 0 1).day due.hour due.minute due.second
            (next.addDate 0 0 1).off) := by
        rw [weeklyScan_succ]
        simp only [hc, if_true]
      obtain ⟨hm1, hm2, hdd1, hdd2, hs1, hs2⟩ := hv'
      have hgo : goDate (next.addDate 0 0 1).year (next.addDate 0 0 1).month
          (next.addDate 0 0 1).day due.hour due.minute due.second
          (next.addDate 0 0 1).off =
          ⟨(next.addDate 0 0 1).year, (next.addDate 0 0 1).month,
            (next.addDate 0 0 1).day, due.sod, (next.addDate 0 0 1).off⟩ := by
        rw [goDate_id _ _ _ _ _ _ _ hm1 hm2 hdd1 hdd2
          (by rw [hms_sod]; omega) (by rw [hms_sod]; omega)]
        rw [hms_sod]
      constructor
      · intro t ht
        rw [hres, hgo] at ht
        injection ht with ht
        refine ⟨1, le_refl 1, by omega, ?_, ?_, ?_, ?_⟩
        · rw [hone]
          exact hc
        · intro j hj1 hj2
          omega
        · rw [hone, ← ht, hoff']
        · rw [← ht]
          unfold GoTime.abs at habs' ⊢
          obtain ⟨_, _, _, _, hns1, hns2⟩ := hv
          simp only [] at habs' ⊢
          omega
      · rw [hres]
        constructor
        · intro h
          exact absurd h (by simp)
        · intro hall
          have := hall 1 (le_refl 1) (by omega)
          rw [hone] at this
          rw [this] at hc
          exact absurd hc (by simp)

/-- C6: on a weekly reminder whose end-date guard does not cut the request
off, `NextOccurrence(after)` scans at most seven days starting one day after
`after` and returns the first scanned date whose weekday is listed in
`recurrence.days`, combined with the stored due clock — a result strictly
after `after`; when none of the seven scanned days is listed it returns
none. -/
theorem weekly_next_occurrence (r : Reminder) (after : GoTime)
    (htype : r.recurrence.type = "weekly") (hva : after.valid)
    (hvd : r.due_date.valid)
    (hgate : endDateCut r.recurrence.end_date after = false) :
    (∀ t, r.nextOccurrence after = some t →
      ∃ k, 1 ≤ k ∧ k ≤ 7 ∧
        r.recurrence.days.contains (dayIter after k).weekdayName = true ∧
        (∀ j, 1 ≤ j → j < k →
          r.recurrence.days.contains (dayIter after j).weekdayName = false) ∧
        t = ⟨(dayIter after k).year, (dayIter after k).month,
             (dayIter after k).day, r.due_date.sod, after.off⟩ ∧
        after.abs < t.abs) ∧
    (r.nextOccurrence after = none ↔
      ∀ k, 1 ≤ k → k ≤ 7 →
        r.recurrence.days.contains (dayIter after k).weekdayName = false) := by
  have heq : r.nextOccurrence after =
      weeklyScan r.recurrence.days r.due_date after 7 := by
    unfold Reminder.nextOccurrence
    rw [htype, hgate]
    rfl
  rw [heq]
  exact weeklyScan_spec r.recurrence.days r.due_date hvd.2.2.2.2.1
    hvd.2.2.2.2.2 7 after hva

/-- Witness for C6: the concrete Monday reminder scanned from the Sunday
before it; the scan stops on the first day, Monday 2024-06-03. -/
theorem weekly_next_occurrence_witness :
    exWeeklyRem.recurrence.type = "weekly" ∧ exSunday.valid ∧
    (exWeeklyRem.nextOccurrence exSunday = none ↔
      ∀ k, 1 ≤ k → k ≤ 7 →
        exWeeklyRem.recurrence.days.contains
          (dayIter exSunday k).weekdayName = false) :=
  ⟨by decide, by decide,
    (weekly_next_occurrence exWeeklyRem exSunday (by decide) (by decide)
      (by decide) (by decide)).2⟩
